import Mathlib

/-!
Shallow embedding of `src/native/extypst_nif/src/lib.rs` (the `ex_typst`
NIF: a typst `World` implementation with a font searcher and a compile
entry point), together with theorems settling the specification claims.

Modelling conventions:
* Machine integers (`u16`, `u32`, `usize`, `u128`) are modelled as `Nat`;
  none of the modelled operations can overflow on the inputs involved
  (file ids are interner indices and the interner refuses more than
  2^16 entries by panicking at creation, so `as_u16` is the identity on
  every id that exists).
* Types owned by the external `typst` crate that this repository never
  inspects (`FontInfo`, `Font`, `Library`, raw bytes) are modelled as
  opaque stand-ins (`Nat`, `List Nat`, `Unit`): the code only moves them
  around, so any inhabited type is faithful.
* `typst::syntax::FileId::new(None, vpath)` interns the virtual path in a
  global interner and returns its index; the interner state is threaded
  explicitly as a `List String` (index = id).
* `OnceCell` is an `Option` (`none` = not yet initialised).
* Filesystem interaction is modelled by explicit inputs: a directory tree
  for `walkdir`, and an `Option (List FontInfo)` for
  `File::open` + `Mmap::map` + `FontInfo::iter` on one file.
-/

namespace ExTypst

/-- Opaque stand-in for `typst::text::FontInfo` (external crate; the code
under verification never inspects its contents, only stores it). -/
abbrev FontInfo := Nat

/-- Opaque stand-in for `typst::text::Font` (external crate). -/
abbrev Font := Nat

/-- Opaque stand-in for `typst::Library` (external crate; constructed once
with `Library::default()` and never modified). -/
abbrev Library := Unit

/-- Model of `PathHash` from lib.rs: a 128-bit hash of the OS file
identity, modelled as `Nat`. -/
abbrev PathHash := Nat

/-- Model of `typst::diag::FileError` (the variants this code constructs
or that its error type can carry). -/
inductive FileError where
  | notFound (path : String)
  | accessDenied
  | isDirectory
  | other
deriving DecidableEq, Repr

/-- Model of `typst::syntax::Source` as used here: `Source::new(id, text)`
stores the file id and the text. -/
structure Source where
  id : Nat
  text : String
deriving DecidableEq, Repr

/-- Model of `FontSlot` from lib.rs: the location of one font face and a
`OnceCell<Option<Font>>` holding the lazily loaded font. -/
structure FontSlot where
  path : String
  index : Nat
  font : Option (Option Font)
deriving DecidableEq, Repr

/-- Model of `PathSlot` from lib.rs: canonical data for all paths pointing
to the same entity; two `OnceCell`s for the parsed source id and the raw
bytes. (Dead code in the source: nothing ever inserts into the path maps.) -/
structure PathSlot where
  source : Option (Except FileError Nat)
  buffer : Option (Except FileError (List Nat))
deriving Repr

/-- Model of the global `typst::syntax::FileId` interner: the list of
already-interned virtual paths, index = raw id (package component is
always `None` in this code). -/
abbrev Interner := List String

/-- Model of `FileId::new(None, VirtualPath::new(vpath))`: return the index
of `vpath` if already interned, otherwise append it and return the fresh
index. Returns the updated interner and the raw id (`as_u16`). -/
def fileIdNew (itn : Interner) (vpath : String) : Interner × Nat :=
  match itn.findIdx? (· = vpath) with
  | some i => (itn, i)
  | none => (itn ++ [vpath], itn.length)

/-- Model of `SystemWorld` from lib.rs. `hashes` and `paths` model the two
`RwLock<HashMap<..>>` caches (as association lists; no code in this file
ever inserts into them, they are only cleared), `sources` models the
append-only `FrozenVec<Box<Source>>`, `main` the raw id of the main
`FileId`. -/
structure SystemWorld where
  root : String
  library : Library
  book : List FontInfo
  fonts : List FontSlot
  hashes : List (String × Except FileError PathHash)
  paths : List (PathHash × PathSlot)
  sources : List Source
  main : Nat
deriving Repr

/-- Model of `SystemWorld::source`: index the append-only source list by
the raw id (`id.as_u16() as usize`); out of range is `NotFound`. -/
def SystemWorld.source (w : SystemWorld) (id : Nat) : Except FileError Source :=
  match w.sources.get? id with
  | some s => .ok s
  | none => .error (.notFound "source not found")

/-- Model of `SystemWorld::file`: the simplified implementation ignores the
id and returns `Ok` of empty bytes. -/
def SystemWorld.file (_w : SystemWorld) (_id : Nat) : Except FileError (List Nat) :=
  .ok []

/-- Model of `SystemWorld::font`. `load path index` stands for the closure
body `read(&slot.path).ok()? ; Font::new(data, slot.index)` (external
I/O + parsing). `fonts.get(index)?` yields `none` when the index is out of
range; otherwise `get_or_init` returns the cached value or computes,
stores and returns `load`. Returns the value and the updated world. -/
def SystemWorld.font (load : String → Nat → Option Font) (w : SystemWorld)
    (index : Nat) : Option Font × SystemWorld :=
  match w.fonts.get? index with
  | none => (none, w)
  | some slot =>
    match slot.font with
    | some cached => (cached, w)
    | none =>
      let f := load slot.path slot.index
      (f, { w with fonts := w.fonts.set index { slot with font := some f } })

/-- Model of `SystemWorld::insert`: intern the virtual path to get the id,
push `Source::new(id, text)` onto the append-only source list, return the
id (with the updated interner and world). -/
def SystemWorld.insert (itn : Interner) (w : SystemWorld) (path : String)
    (text : String) : Interner × SystemWorld × Nat :=
  let p := fileIdNew itn path
  (p.1, { w with sources := w.sources ++ [Source.mk p.2 text] }, p.2)

/-- Model of `SystemWorld::reset`: clear the two path-cache maps; despite
the `// Clear sources` comment, `sources` (a `FrozenVec`, which has no
`clear`) is left untouched, as is everything else. -/
def SystemWorld.reset (w : SystemWorld) : SystemWorld :=
  { w with hashes := [], paths := [] }

/-- Suffix of the character list strictly after its last `'.'`, or `none`
if it contains no `'.'`. Helper for `extension`. -/
def afterLastDot : List Char → Option (List Char)
  | [] => none
  | c :: rest =>
    match afterLastDot rest with
    | some e => some e
    | none => if c = '.' then some rest else none

/-- Model of Rust `Path::extension()` applied to a file name: the portion
after the last `'.'` that is not at position 0 (so a leading dot of a
hidden file does not count), with `".."` special-cased to `none`. -/
def extension (name : String) : Option String :=
  if name = ".." then none
  else
    match name.toList with
    | [] => none
    | _ :: rest => (afterLastDot rest).map fun cs => String.mk cs

/-- The extension literals accepted by the `matches!` in
`FontSearcher::search_dir`. -/
def fontExtensions : List String :=
  ["ttf", "otf", "TTF", "OTF", "ttc", "otc", "TTC", "OTC"]

/-- Model of the candidate filter in `FontSearcher::search_dir`:
`matches!(path.extension().and_then(|s| s.to_str()), Some("ttf" | ...))`.
Applied to the entry's file name (the extension of a path is the extension
of its file name). -/
def isCandidate (name : String) : Bool :=
  match extension name with
  | some e => fontExtensions.contains e
  | none => false

/-- Model of one filesystem subtree as seen by `walkdir`: a file carries
the result of `File::open` + `Mmap::map` + `FontInfo::iter` on it (`none`
when opening or mapping fails), a directory carries its entries (in the
OS enumeration order, which `search_dir` re-sorts). -/
inductive FsTree where
  | file (name : String) (faces : Option (List FontInfo))
  | dir (name : String) (children : List FsTree)
deriving Repr

/-- File name of a tree node (Rust `DirEntry::file_name`). -/
def FsTree.name : FsTree → String
  | .file n _ => n
  | .dir n _ => n

/-- Faces obtained by opening and mapping the node: a directory yields
`none` (`Mmap::map` on a directory fails), a file yields its stored
result. -/
def FsTree.faces : FsTree → Option (List FontInfo)
  | .file _ d => d
  | .dir _ _ => none

/-- The comparator `|a, b| a.file_name().cmp(b.file_name())` passed to
`WalkDir::sort_by`, as a Boolean `le`. -/
def nameLe (a b : FsTree) : Bool := decide (a.name ≤ b.name)

/-- Sibling order produced by `WalkDir::sort_by` within one directory:
a stable sort of the entries by file name (Lean's stable `mergeSort`
computes the same list as Rust's stable `sort_by`). -/
def sortChildren (cs : List FsTree) : List FsTree :=
  cs.mergeSort nameLe

/-- Model of the `WalkDir::new(base/name).follow_links(true).sort_by(..)`
iteration: each entry is yielded (full path paired with the node), a
directory's entry first and then, depth-first, its children sorted by
file name. `base` is the path of the parent directory. -/
def walkEntries (base : String) : FsTree → List (String × FsTree)
  | .file n d => [(base ++ "/" ++ n, .file n d)]
  | .dir n cs =>
    (base ++ "/" ++ n, .dir n cs) ::
      (sortChildren cs).attach.flatMap
        (fun c => walkEntries (base ++ "/" ++ n) c.1)
termination_by t => sizeOf t
decreasing_by
  rename_i n cs
  have hmem : c.1 ∈ cs := by
    simpa [sortChildren] using (List.mem_mergeSort.mp c.2)
  have := List.sizeOf_lt_of_mem hmem
  simp_wf
  omega

/-- Model of `FontSearcher` from lib.rs: the font metadata book and the
slot list, built side by side. -/
structure FontSearcher where
  book : List FontInfo
  fonts : List FontSlot
deriving Repr

/-- Model of `FontSearcher::new`. -/
def FontSearcher.new : FontSearcher := ⟨[], []⟩

/-- The `for (i, info) in FontInfo::iter(&mmap).enumerate()` loop body of
`FontSearcher::search_file`: push each face's metadata onto the book and a
`FontSlot { path, index: i, font: OnceCell::new() }` onto the slot list. -/
def pushFaces (path : String) : Nat → FontSearcher → List FontInfo → FontSearcher
  | _, s, [] => s
  | i, s, info :: rest =>
    pushFaces path (i + 1)
      { book := s.book ++ [info],
        fonts := s.fonts ++ [FontSlot.mk path i none] } rest

/-- Model of `FontSearcher::search_file`: if opening and memory-mapping the
file succeeds (`mm = some infos`), index every face it contains; otherwise
do nothing. -/
def FontSearcher.search_file (s : FontSearcher) (path : String)
    (mm : Option (List FontInfo)) : FontSearcher :=
  match mm with
  | none => s
  | some infos => pushFaces path 0 s infos

/-- Model of `FontSearcher::search_dir`: walk the tree (sorted by file
name, depth-first), and `search_file` every entry whose extension matches
the font-format filter. -/
def FontSearcher.search_dir (s : FontSearcher) (parent : String)
    (t : FsTree) : FontSearcher :=
  (walkEntries parent t).foldl
    (fun s pr =>
      if isCandidate pr.2.name then s.search_file pr.1 pr.2.faces else s) s

/-- Model of `FontSearcher::search_system`: `search_dir` over the
platform's system font directories, here passed explicitly as
(parent path, subtree) pairs in the order the code visits them. -/
def FontSearcher.search_system (s : FontSearcher)
    (sysDirs : List (String × FsTree)) : FontSearcher :=
  sysDirs.foldl (fun s pr => s.search_dir pr.1 pr.2) s

/-- Model of `SystemWorld::new`: run the font search (system directories,
then `font_paths` directories, then `font_files`), intern the fixed main
virtual path `"MARKUP.typ"`, and build the world with empty caches and an
empty source registry. -/
def SystemWorld.new (itn : Interner) (root : String)
    (sysDirs : List (String × FsTree))
    (fontPaths : List (String × FsTree))
    (fontFiles : List (String × Option (List FontInfo))) :
    Interner × SystemWorld :=
  let s0 := FontSearcher.new.search_system sysDirs
  let s1 := fontPaths.foldl (fun s pr => s.search_dir pr.1 pr.2) s0
  let s2 := fontFiles.foldl (fun s pr => s.search_file pr.1 pr.2) s1
  let p := fileIdNew itn "MARKUP.typ"
  (p.1,
   { root := root, library := (), book := s2.book, fonts := s2.fonts,
     hashes := [], paths := [], sources := [], main := p.2 })

/-- Model of the state-preparation phase of `SystemWorld::compile`:
`self.reset(); self.main = self.insert(Path::new("MARKUP.typ"), markup)`.
The subsequent call into the external typst engine reads the state back
only through `source`, `file`, `font`, `main`. -/
def SystemWorld.compileSetup (itn : Interner) (w : SystemWorld)
    (markup : String) : Interner × SystemWorld :=
  let r := (w.reset).insert itn "MARKUP.typ" markup
  (r.1, { r.2.1 with main := r.2.2 })

/-- Concrete world used as the explicit input of counterexamples and
witnesses: one registered source, empty font catalogue, main id 0. -/
def sampleWorld : SystemWorld :=
  { root := ".", library := (), book := [], fonts := [],
    hashes := [], paths := [], sources := [Source.mk 0 "= Hello"],
    main := 0 }

/-- Concrete world with an empty source registry (as left by
`SystemWorld::new`), used as the explicit input of counterexamples and
witnesses. -/
def emptyWorld : SystemWorld :=
  { root := ".", library := (), book := [], fonts := [],
    hashes := [], paths := [], sources := [], main := 0 }

/-- C9: `SystemWorld::reset` clears exactly the two path-cache maps
(path-to-identity `hashes` and identity-to-slot `paths`); the source
registry, the font slot list, the font book, the library, the root path
and the main id are all left unchanged. -/
theorem reset_clears_only_path_cache (w : SystemWorld) :
    (w.reset).hashes = [] ∧ (w.reset).paths = [] ∧
    (w.reset).sources = w.sources ∧ (w.reset).fonts = w.fonts ∧
    (w.reset).book = w.book ∧ (w.reset).library = w.library ∧
    (w.reset).root = w.root ∧ (w.reset).main = w.main :=
  ⟨rfl, rfl, rfl, rfl, rfl, rfl, rfl, rfl⟩

/-- C10: on a freshly constructed world, `main` is already the definite id
interned for the fixed virtual path `"MARKUP.typ"`, but the source
registry is empty, so `source` returns a `NotFound` error for every id —
in particular for `main` itself. -/
theorem new_main_definite_but_source_not_found (itn : Interner)
    (root : String) (sysDirs fontPaths : List (String × FsTree))
    (fontFiles : List (String × Option (List FontInfo))) :
    (SystemWorld.new itn root sysDirs fontPaths fontFiles).2.main
        = (fileIdNew itn "MARKUP.typ").2 ∧
    (SystemWorld.new itn root sysDirs fontPaths fontFiles).2.sources = [] ∧
    ∀ id, (SystemWorld.new itn root sysDirs fontPaths fontFiles).2.source id
        = .error (.notFound "source not found") := by
  refine ⟨rfl, rfl, fun id => ?_⟩
  show Except.error _ = _
  rfl

/-- C4, counterexample: the claim says `file` returns a not-found error
for every id other than the main document; at the explicit input
`sampleWorld` (main id 0) and id 5 it instead returns `Ok` of empty
bytes, which is not an error at all. -/
theorem file_not_notFound_at_5 :
    sampleWorld.main ≠ 5 ∧ sampleWorld.file 5 = .ok [] ∧
    ∀ e : FileError, sampleWorld.file 5 ≠ .error e :=
  ⟨by decide, rfl, fun _ h => Except.noConfusion h⟩

/-- C4, amended: `SystemWorld::file` ignores the id and returns successful
empty bytes for every id — including ids other than the registered main
document; no id is reported not-found. -/
theorem file_always_ok_empty (w : SystemWorld) (id : Nat) :
    w.file id = .ok [] := rfl

/-- C5: for every index outside `[0, catalogueSize)` (with the catalogue
and the slot list of equal length, as construction guarantees),
`SystemWorld::font` returns `none` and leaves the world unchanged; its
return type `Option Font` has no error branch at all. -/
theorem font_out_of_range_is_none (load : String → Nat → Option Font)
    (w : SystemWorld) (index : Nat)
    (hlen : w.book.length = w.fonts.length)
    (hidx : w.book.length ≤ index) :
    (SystemWorld.font load w index).1 = none ∧
    (SystemWorld.font load w index).2 = w := by
  have hnone : w.fonts[index]? = none := List.getElem?_eq_none (by omega)
  simp [SystemWorld.font, hnone]

/-- C5 witness: `font_out_of_range_is_none` applied at the concrete world
`sampleWorld` (empty catalogue) and index 3. -/
theorem font_out_of_range_is_none_witness :
    (SystemWorld.font (fun _ _ => none) sampleWorld 3).1 = none ∧
    (SystemWorld.font (fun _ _ => none) sampleWorld 3).2 = sampleWorld :=
  font_out_of_range_is_none (fun _ _ => none) sampleWorld 3 rfl (by decide)

/-- C1, failing input evaluated: starting from a fresh world,
`compile("A")` followed by `compile("B")` yields a second pass whose main
id EQUALS the first pass's main id (`FileId::new` interns by virtual path,
so `"MARKUP.typ"` maps to the same id), and `source(main)` during the
second pass returns the FIRST markup's text `"A"` (reset never clears the
append-only source list and `source` indexes it by the raw id), contrary
to the claim on both counts. -/
theorem second_compile_sees_first_markup :
    ((SystemWorld.compileSetup
        (SystemWorld.compileSetup
          (SystemWorld.new [] "." [] [] []).1
          (SystemWorld.new [] "." [] [] []).2 "A").1
        (SystemWorld.compileSetup
          (SystemWorld.new [] "." [] [] []).1
          (SystemWorld.new [] "." [] [] []).2 "A").2 "B").2.main
      = (SystemWorld.compileSetup
          (SystemWorld.new [] "." [] [] []).1
          (SystemWorld.new [] "." [] [] []).2 "A").2.main) ∧
    ((SystemWorld.compileSetup
        (SystemWorld.compileSetup
          (SystemWorld.new [] "." [] [] []).1
          (SystemWorld.new [] "." [] [] []).2 "A").1
        (SystemWorld.compileSetup
          (SystemWorld.new [] "." [] [] []).1
          (SystemWorld.new [] "." [] [] []).2 "A").2 "B").2.source
      (SystemWorld.compileSetup
        (SystemWorld.compileSetup
          (SystemWorld.new [] "." [] [] []).1
          (SystemWorld.new [] "." [] [] []).2 "A").1
        (SystemWorld.compileSetup
          (SystemWorld.new [] "." [] [] []).1
          (SystemWorld.new [] "." [] [] []).2 "A").2 "B").2.main
      = .ok (Source.mk 0 "A")) :=
  ⟨rfl, rfl⟩

/-- C3, counterexample: two registrations with the EQUAL virtual path
`"P.typ"` on a fresh world return the same id 0 twice — not two distinct,
increasing ids — because `FileId::new` interns by virtual path. -/
theorem register_equal_paths_returns_same_id :
    (emptyWorld.insert [] "P.typ" "a").2.2 = 0 ∧
    ((emptyWorld.insert [] "P.typ" "a").2.1.insert
      (emptyWorld.insert [] "P.typ" "a").1 "P.typ" "b").2.2 = 0 :=
  ⟨rfl, rfl⟩

/-- C3, amended: provided the interner is aligned with the registry
(equal lengths) and the two virtual paths are distinct and not yet
interned, `register(a); register(b)` yields increasing ids
(`id2 = id1 + 1`), appends without overwriting (every previously
registered source is unchanged), and `get` on the first id after the
second registration still returns a's source unchanged. (With equal
virtual paths the same interned id is returned twice — see the
counterexample.) -/
theorem register_register_fresh_paths (itn : Interner) (w : SystemWorld)
    (p1 t1 p2 t2 : String)
    (halign : itn.length = w.sources.length)
    (h1 : p1 ∉ itn) (h2 : p2 ∉ itn) (hne : p1 ≠ p2) :
    (w.insert itn p1 t1).2.2 = w.sources.length ∧
    ((w.insert itn p1 t1).2.1.insert (w.insert itn p1 t1).1 p2 t2).2.2
      = (w.insert itn p1 t1).2.2 + 1 ∧
    ((w.insert itn p1 t1).2.1.insert (w.insert itn p1 t1).1 p2 t2).2.1.source
        (w.insert itn p1 t1).2.2
      = .ok (Source.mk w.sources.length t1) ∧
    (∀ i, i < w.sources.length →
      ((w.insert itn p1 t1).2.1.insert (w.insert itn p1 t1).1 p2 t2).2.1.sources[i]?
        = w.sources[i]?) := by
  have hf1 : itn.findIdx? (· = p1) = none := by
    rw [List.findIdx?_eq_none_iff]
    intro x hx
    simp only [decide_eq_false_iff_not]
    intro hxe
    exact h1 (hxe ▸ hx)
  have hf2 : (itn ++ [p1]).findIdx? (· = p2) = none := by
    rw [List.findIdx?_eq_none_iff]
    intro x hx
    simp only [decide_eq_false_iff_not]
    intro hxe
    subst hxe
    rcases List.mem_append.mp hx with hl | hr
    · exact h2 hl
    · exact hne (List.mem_singleton.mp hr).symm
  refine ⟨?_, ?_, ?_, ?_⟩
  · simp [SystemWorld.insert, fileIdNew, hf1, halign]
  · simp [SystemWorld.insert, fileIdNew, hf1, hf2]
  · simp only [SystemWorld.insert, fileIdNew, hf1, hf2, SystemWorld.source,
      halign]
    rw [List.get?_eq_getElem?, List.append_assoc,
      List.getElem?_append_right (by omega)]
    simp [halign]
  · intro i hi
    simp only [SystemWorld.insert, fileIdNew, hf1, hf2]
    rw [List.append_assoc, List.getElem?_append_left hi]

/-- C3 witness: `register_register_fresh_paths` applied on the empty
interner and the empty registry with the concrete fresh paths `"A.typ"`
and `"B.typ"`: ids 0 then 1, no prior entry touched, and `get` on the
first id returns a's source. -/
theorem register_register_fresh_paths_witness :
    (emptyWorld.insert [] "A.typ" "a").2.2 = emptyWorld.sources.length ∧
    ((emptyWorld.insert [] "A.typ" "a").2.1.insert
      (emptyWorld.insert [] "A.typ" "a").1 "B.typ" "b").2.2
      = (emptyWorld.insert [] "A.typ" "a").2.2 + 1 ∧
    ((emptyWorld.insert [] "A.typ" "a").2.1.insert
      (emptyWorld.insert [] "A.typ" "a").1 "B.typ" "b").2.1.source
        (emptyWorld.insert [] "A.typ" "a").2.2
      = .ok (Source.mk emptyWorld.sources.length "a") ∧
    (∀ i, i < emptyWorld.sources.length →
      ((emptyWorld.insert [] "A.typ" "a").2.1.insert
        (emptyWorld.insert [] "A.typ" "a").1 "B.typ" "b").2.1.sources[i]?
        = emptyWorld.sources[i]?) :=
  register_register_fresh_paths [] emptyWorld "A.typ" "a" "B.typ" "b"
    rfl (by decide) (by decide) (by decide)

/-- C8, counterexample: `"x.Ttf"` has extension `"Ttf"`, a casing of
`"ttf"` (its lowercasing is `"ttf"`), yet the filter does not select it —
the `matches!` only accepts the all-lowercase and all-uppercase
spellings, so selection is not case-insensitive. -/
theorem mixed_case_extension_not_selected :
    extension "x.Ttf" = some "Ttf" ∧
    "Ttf".toList.map Char.toLower = "ttf".toList ∧
    isCandidate "x.Ttf" = false :=
  ⟨rfl, by decide, rfl⟩

/-- C8, amended: a file is selected as a candidate font container if and
only if its extension is exactly one of the eight literal spellings
`ttf, otf, ttc, otc, TTF, OTF, TTC, OTC` (all-lowercase or all-uppercase
only); mixed casings such as `"Ttf"` are not selected. -/
theorem candidate_iff_literal_extension (name : String) :
    isCandidate name = true ↔
      ∃ e, extension name = some e ∧ e ∈ fontExtensions := by
  unfold isCandidate
  cases h : extension name with
  | none => simp
  | some e =>
    simp only [Option.some.injEq]
    constructor
    · intro hc
      exact ⟨e, rfl, by simpa using hc⟩
    · rintro ⟨e', he', hmem⟩
      subst he'
      simpa using hmem

/-- One face discovery: the file path, the in-file face index this face
was enumerated at, and its metadata. -/
abbrev Discovery := String × Nat × FontInfo

/-- The catalogue entry a discovery appends. -/
def discInfo (d : Discovery) : FontInfo := d.2.2

/-- The handle a discovery appends: an uninitialised `FontSlot` with the
file path and the in-file face index. -/
def discSlot (d : Discovery) : FontSlot := ⟨d.1, d.2.1, none⟩

/-- The discoveries of one file's face list, enumerated from index `i`. -/
def enumFaces (path : String) : Nat → List FontInfo → List Discovery
  | _, [] => []
  | i, info :: rest => (path, i, info) :: enumFaces path (i + 1) rest

/-- The discoveries `search_file` makes on one file. -/
def fileDisc (path : String) : Option (List FontInfo) → List Discovery
  | none => []
  | some infos => enumFaces path 0 infos

/-- The discoveries `search_dir` makes: walk entries in visit order, font
candidates contribute their faces. -/
def dirDisc (parent : String) (t : FsTree) : List Discovery :=
  (walkEntries parent t).flatMap
    (fun pr => if isCandidate pr.2.name then fileDisc pr.1 pr.2.faces else [])

/-- One indexing operation, with its filesystem inputs. -/
inductive SearchOp where
  | file (path : String) (mm : Option (List FontInfo))
  | dir (parent : String) (t : FsTree)
  | system (dirs : List (String × FsTree))

/-- Run one indexing operation on a searcher. -/
def runOp (s : FontSearcher) : SearchOp → FontSearcher
  | .file p mm => s.search_file p mm
  | .dir parent t => s.search_dir parent t
  | .system dirs => s.search_system dirs

/-- Run a sequence of indexing operations, as `SystemWorld::new` does. -/
def runOps (s : FontSearcher) (ops : List SearchOp) : FontSearcher :=
  ops.foldl runOp s

/-- The discoveries of one indexing operation. -/
def opDisc : SearchOp → List Discovery
  | .file p mm => fileDisc p mm
  | .dir parent t => dirDisc parent t
  | .system dirs => dirs.flatMap (fun pr => dirDisc pr.1 pr.2)

/-- The discoveries of a sequence of indexing operations, in order. -/
def opsDisc (ops : List SearchOp) : List Discovery :=
  ops.flatMap opDisc

/-- The enumerate loop appends, in face order, one catalogue entry and one
handle per discovery. -/
theorem pushFaces_spec (path : String) :
    ∀ (infos : List FontInfo) (i : Nat) (s : FontSearcher),
    pushFaces path i s infos =
      ⟨s.book ++ (enumFaces path i infos).map discInfo,
       s.fonts ++ (enumFaces path i infos).map discSlot⟩
  | [], _, s => by simp [pushFaces, enumFaces]
  | info :: rest, i, s => by
    simp [pushFaces, enumFaces, pushFaces_spec path rest (i + 1), discInfo,
      discSlot]

/-- `search_file` appends exactly its discoveries' entries and handles. -/
theorem search_file_spec (s : FontSearcher) (path : String)
    (mm : Option (List FontInfo)) :
    s.search_file path mm =
      ⟨s.book ++ (fileDisc path mm).map discInfo,
       s.fonts ++ (fileDisc path mm).map discSlot⟩ := by
  cases mm with
  | none => simp [FontSearcher.search_file, fileDisc]
  | some infos =>
    simp [FontSearcher.search_file, fileDisc, pushFaces_spec]

/-- Folding the `search_dir` step over any entry list appends exactly the
corresponding discoveries. -/
theorem foldl_entries_spec :
    ∀ (es : List (String × FsTree)) (s : FontSearcher),
    es.foldl
      (fun s pr =>
        if isCandidate pr.2.name then s.search_file pr.1 pr.2.faces else s) s
      = ⟨s.book ++ (es.flatMap (fun pr =>
            if isCandidate pr.2.name then fileDisc pr.1 pr.2.faces
            else [])).map discInfo,
         s.fonts ++ (es.flatMap (fun pr =>
            if isCandidate pr.2.name then fileDisc pr.1 pr.2.faces
            else [])).map discSlot⟩
  | [], s => by simp
  | pr :: es, s => by
    simp only [List.foldl_cons]
    by_cases h : isCandidate pr.2.name
    · rw [if_pos h, search_file_spec, foldl_entries_spec es]
      simp [List.flatMap_cons, h, List.append_assoc]
    · rw [if_neg h, foldl_entries_spec es]
      simp [List.flatMap_cons, h]

/-- `search_dir` appends exactly its discoveries' entries and handles. -/
theorem search_dir_spec (s : FontSearcher) (parent : String) (t : FsTree) :
    s.search_dir parent t =
      ⟨s.book ++ (dirDisc parent t).map discInfo,
       s.fonts ++ (dirDisc parent t).map discSlot⟩ := by
  simp [FontSearcher.search_dir, dirDisc, foldl_entries_spec]

/-- `search_system` appends exactly its discoveries' entries and
handles. -/
theorem search_system_spec :
    ∀ (dirs : List (String × FsTree)) (s : FontSearcher),
    s.search_system dirs =
      ⟨s.book ++ (dirs.flatMap (fun pr => dirDisc pr.1 pr.2)).map discInfo,
       s.fonts ++ (dirs.flatMap (fun pr => dirDisc pr.1 pr.2)).map discSlot⟩
  | [], s => by simp [FontSearcher.search_system]
  | pr :: dirs, s => by
    have step : (pr :: dirs).foldl (fun s pr => s.search_dir pr.1 pr.2) s
        = dirs.foldl (fun s pr => s.search_dir pr.1 pr.2)
            (s.search_dir pr.1 pr.2) := rfl
    simp only [FontSearcher.search_system] at step ⊢
    rw [step, show dirs.foldl (fun s pr => s.search_dir pr.1 pr.2)
          (s.search_dir pr.1 pr.2)
        = (s.search_dir pr.1 pr.2).search_system dirs from rfl,
      search_system_spec dirs, search_dir_spec]
    simp [List.append_assoc]

/-- `runOps` appends exactly the discoveries of its operations. -/
theorem runOps_spec :
    ∀ (ops : List SearchOp) (s : FontSearcher),
    runOps s ops =
      ⟨s.book ++ (opsDisc ops).map discInfo,
       s.fonts ++ (opsDisc ops).map discSlot⟩
  | [], s => by simp [runOps, opsDisc]
  | op :: ops, s => by
    have hop : runOp s op =
        ⟨s.book ++ (opDisc op).map discInfo,
         s.fonts ++ (opDisc op).map discSlot⟩ := by
      cases op with
      | file p mm => simpa [runOp, opDisc] using search_file_spec s p mm
      | dir parent t => simpa [runOp, opDisc] using search_dir_spec s parent t
      | system dirs => simpa [runOp, opDisc] using search_system_spec dirs s
    calc runOps s (op :: ops) = runOps (runOp s op) ops := rfl
      _ = _ := by
          rw [runOps_spec ops, hop]
          simp [opsDisc, List.append_assoc]

/-- C6: after any sequence of indexing operations starting from the empty
searcher, the catalogue (book) is exactly the per-face metadata of the
discovery sequence and the handle list is exactly the per-face
(path, in-file index) slots of the SAME discovery sequence, in the same
order — so both have equal length and the i-th catalogue entry and the
i-th handle come from the same face discovery. -/
theorem catalogue_and_handles_aligned (ops : List SearchOp) :
    (runOps FontSearcher.new ops).book = (opsDisc ops).map discInfo ∧
    (runOps FontSearcher.new ops).fonts = (opsDisc ops).map discSlot ∧
    (runOps FontSearcher.new ops).book.length
      = (runOps FontSearcher.new ops).fonts.length := by
  have h := runOps_spec ops FontSearcher.new
  refine ⟨?_, ?_, ?_⟩
  · rw [h]; simp [FontSearcher.new]
  · rw [h]; simp [FontSearcher.new]
  · rw [h]; simp [FontSearcher.new]

/-- `nameLe` is transitive. -/
theorem nameLe_trans : ∀ a b c : FsTree, nameLe a b → nameLe b c → nameLe a c := by
  intro a b c hab hbc
  simp only [nameLe, decide_eq_true_eq] at hab hbc ⊢
  exact le_trans hab hbc

/-- `nameLe` is total. -/
theorem nameLe_total : ∀ a b : FsTree, nameLe a b || nameLe b a := by
  intro a b
  simp only [nameLe, Bool.or_eq_true, decide_eq_true_eq]
  exact le_total a.name b.name

/-- `sortChildren` permutes its input. -/
theorem sortChildren_perm (cs : List FsTree) : (sortChildren cs).Perm cs :=
  List.mergeSort_perm cs nameLe

/-- `sortChildren` sorts by name. -/
theorem sortChildren_sorted (cs : List FsTree) :
    (sortChildren cs).Pairwise (fun a b => nameLe a b) :=
  List.sorted_mergeSort nameLe_trans nameLe_total cs

/-- Sorting an already-sorted list is the identity, so `sortChildren` is
idempotent. -/
theorem sortChildren_idem (cs : List FsTree) :
    sortChildren (sortChildren cs) = sortChildren cs :=
  List.mergeSort_of_sorted (sortChildren_sorted cs)

/-- Unfolding of `walkEntries` on a directory, with the `attach` used for
termination removed. -/
theorem walkEntries_dir (base n : String) (cs : List FsTree) :
    walkEntries base (.dir n cs)
      = (base ++ "/" ++ n, .dir n cs) ::
          (sortChildren cs).flatMap
            (fun c => walkEntries (base ++ "/" ++ n) c) := by
  rw [walkEntries]
  congr 1
  rw [List.flatMap_def, List.flatMap_def, List.attach_map_val]

/-- Canonical form of a tree: every directory's children recursively
canonicalised and then sorted by name. -/
def canon : FsTree → FsTree
  | .file n d => .file n d
  | .dir n cs => .dir n (sortChildren (cs.attach.map fun c => canon c.1))
termination_by t => sizeOf t
decreasing_by
  rename_i n cs
  have := List.sizeOf_lt_of_mem c.2
  simp_wf
  omega

/-- Unfolding of `canon` on a directory, with the `attach` removed. -/
theorem canon_dir (n : String) (cs : List FsTree) :
    canon (.dir n cs) = .dir n (sortChildren (cs.map canon)) := by
  rw [canon, List.attach_map_val]

/-- `canon` preserves the node name. -/
theorem canon_name : ∀ t : FsTree, (canon t).name = t.name
  | .file _ _ => by rw [canon]
  | .dir n cs => by rw [canon_dir]; rfl

/-- Two sorted lists of trees that are permutations of each other and
have pairwise-distinct names are equal. -/
theorem sorted_perm_nodup_eq :
    ∀ (l1 l2 : List FsTree), l1.Perm l2 → (l1.map FsTree.name).Nodup →
      l1.Pairwise (fun a b => nameLe a b) →
      l2.Pairwise (fun a b => nameLe a b) → l1 = l2
  | [], _, hp, _, _, _ => hp.nil_eq
  | a :: t1, l2, hp, hnd, hs1, hs2 => by
    cases l2 with
    | nil => exact absurd hp.eq_nil (by simp)
    | cons b t2 =>
      rw [List.map_cons, List.nodup_cons] at hnd
      have hab : a = b := by
        by_contra hne
        have hain : a ∈ b :: t2 := hp.subset (List.mem_cons_self a t1)
        have hbin : b ∈ a :: t1 := hp.symm.subset (List.mem_cons_self b t2)
        have ha2 : a ∈ t2 := by
          rcases List.mem_cons.mp hain with h | h
          · exact absurd h hne
          · exact h
        have hb1 : b ∈ t1 := by
          rcases List.mem_cons.mp hbin with h | h
          · exact absurd h.symm hne
          · exact h
        have h1 : nameLe a b := (List.pairwise_cons.mp hs1).1 b hb1
        have h2 : nameLe b a := (List.pairwise_cons.mp hs2).1 a ha2
        have hname : a.name = b.name := by
          simp only [nameLe, decide_eq_true_eq] at h1 h2
          exact le_antisymm h1 h2
        exact hnd.1 (List.mem_map.mpr ⟨b, hb1, hname.symm⟩)
      subst hab
      rw [sorted_perm_nodup_eq t1 t2 hp.cons_inv hnd.2
        (List.pairwise_cons.mp hs1).2 (List.pairwise_cons.mp hs2).2]

/-- Sibling names are pairwise distinct at every directory of the tree
(true of any real directory listing: a directory cannot contain two
entries with the same name). -/
inductive NodupNames : FsTree → Prop
  | file (n : String) (d : Option (List FontInfo)) : NodupNames (.file n d)
  | dir (n : String) (cs : List FsTree) :
      (cs.map FsTree.name).Nodup → (∀ c ∈ cs, NodupNames c) →
      NodupNames (.dir n cs)

/-- Two trees describe the same filesystem state, differing only in the
order in which each directory's entries happen to be enumerated by the
OS. -/
inductive SameFs : FsTree → FsTree → Prop
  | file (n : String) (d : Option (List FontInfo)) :
      SameFs (.file n d) (.file n d)
  | dir (n : String) (cs1 cs cs2 : List FsTree) :
      List.Forall₂ SameFs cs1 cs → cs.Perm cs2 →
      SameFs (.dir n cs1) (.dir n cs2)

/-- Pointwise `canon`-equality over a `Forall₂ SameFs` relation, given the
element-level statement up to fuel `k`. -/
theorem canon_map_eq (k : Nat)
    (ih : ∀ t1 t2, sizeOf t1 ≤ k → SameFs t1 t2 → NodupNames t1 →
      canon t1 = canon t2) :
    ∀ (l1 l : List FsTree), List.Forall₂ SameFs l1 l →
      (∀ c ∈ l1, sizeOf c ≤ k) → (∀ c ∈ l1, NodupNames c) →
      l1.map canon = l.map canon := by
  intro l1 l hf
  induction hf with
  | nil => intro _ _; rfl
  | @cons a b l1' l' h1 htail ihtail =>
    intro hsz hnd
    simp only [List.map_cons]
    rw [ih a b (hsz a (List.mem_cons_self a l1')) h1
        (hnd a (List.mem_cons_self a l1')),
      ihtail (fun c hc => hsz c (List.mem_cons_of_mem a hc))
        (fun c hc => hnd c (List.mem_cons_of_mem a hc))]

/-- Fuel-indexed: trees describing the same filesystem state, with
distinct sibling names, have equal canonical forms. -/
theorem canon_eq_aux : ∀ (k : Nat) (t1 t2 : FsTree), sizeOf t1 ≤ k →
    SameFs t1 t2 → NodupNames t1 → canon t1 = canon t2 := by
  intro k
  induction k with
  | zero =>
    intro t1 t2 hle _ _
    cases t1 <;> simp only [FsTree.file.sizeOf_spec, FsTree.dir.sizeOf_spec]
      at hle <;> omega
  | succ k ih =>
    intro t1 t2 hle h hnd
    cases h with
    | file n d => rfl
    | dir n cs1 cs cs2 hf hperm =>
      rw [canon_dir, canon_dir]
      cases hnd with
      | dir _ _ hnodup hchild =>
        have hsz : ∀ c ∈ cs1, sizeOf c ≤ k := by
          intro c hc
          have h1 := List.sizeOf_lt_of_mem hc
          simp only [FsTree.dir.sizeOf_spec] at hle
          omega
        have hmap : cs1.map canon = cs.map canon :=
          canon_map_eq k ih cs1 cs hf hsz hchild
        have hperm2 : (cs1.map canon).Perm (cs2.map canon) := by
          rw [hmap]; exact hperm.map canon
        have hnames : (cs1.map canon).map FsTree.name = cs1.map FsTree.name := by
          rw [List.map_map]
          exact List.map_congr_left (fun c _ => canon_name c)
        have hnodup3 : ((sortChildren (cs1.map canon)).map FsTree.name).Nodup := by
          have hp : ((cs1.map canon).map FsTree.name).Perm
              ((sortChildren (cs1.map canon)).map FsTree.name) :=
            ((sortChildren_perm (cs1.map canon)).map FsTree.name).symm
          exact hp.nodup (by rw [hnames]; exact hnodup)
        rw [sorted_perm_nodup_eq (sortChildren (cs1.map canon))
          (sortChildren (cs2.map canon))
          (((sortChildren_perm _).trans hperm2).trans (sortChildren_perm _).symm)
          hnodup3 (sortChildren_sorted _) (sortChildren_sorted _)]

/-- Trees describing the same filesystem state, with distinct sibling
names, have equal canonical forms. -/
theorem canon_eq_of_sameFs {t1 t2 : FsTree} (h : SameFs t1 t2)
    (hnd : NodupNames t1) : canon t1 = canon t2 :=
  canon_eq_aux (sizeOf t1) t1 t2 (le_refl _) h hnd

/-- Discoveries of a single file node. -/
theorem dirDisc_file (parent n : String) (d : Option (List FontInfo)) :
    dirDisc parent (.file n d)
      = if isCandidate n then fileDisc (parent ++ "/" ++ n) d else [] := by
  simp [dirDisc, walkEntries, FsTree.name, FsTree.faces]

/-- Discoveries of a directory node: the sorted children's discoveries in
order (the directory's own entry contributes nothing: mapping a directory
fails, and `fileDisc` of `none` is empty). -/
theorem dirDisc_dir (parent n : String) (cs : List FsTree) :
    dirDisc parent (.dir n cs)
      = (sortChildren cs).flatMap
          (fun c => dirDisc (parent ++ "/" ++ n) c) := by
  unfold dirDisc
  rw [walkEntries_dir, List.flatMap_cons, List.flatMap_assoc]
  have hroot : (if isCandidate (FsTree.dir n cs).name
      then fileDisc (parent ++ "/" ++ n) (FsTree.dir n cs).faces else [])
      = [] := by
    cases h : isCandidate (FsTree.dir n cs).name <;>
      simp [h, FsTree.faces, fileDisc]
  rw [hroot, List.nil_append]

/-- The discoveries of a walk depend only on the canonical form of the
tree: re-sorting the already-canonical children is the identity, and
sorting commutes with canonicalising the children because `canon`
preserves names. -/
theorem dirDisc_canon : ∀ (t : FsTree) (parent : String),
    dirDisc parent t = dirDisc parent (canon t)
  | .file n d, parent => by rw [canon]
  | .dir n cs, parent => by
    rw [canon_dir, dirDisc_dir, dirDisc_dir, sortChildren_idem]
    have hl : ∀ a ∈ cs, ∀ b ∈ cs, nameLe a b = nameLe (canon a) (canon b) := by
      intro a _ b _
      simp [nameLe, canon_name]
    have hcomm : sortChildren (cs.map canon) = (sortChildren cs).map canon := by
      unfold sortChildren
      exact (List.map_mergeSort hl).symm
    rw [hcomm, List.flatMap_map, List.flatMap_def, List.flatMap_def]
    congr 1
    exact List.map_congr_left
      (fun c hc => dirDisc_canon c (parent ++ "/" ++ n))
termination_by t => sizeOf t
decreasing_by
  have hmem : c ∈ cs := by
    simpa [sortChildren] using (List.mem_mergeSort.mp hc)
  have := List.sizeOf_lt_of_mem hmem
  simp_wf
  omega

/-- C7: the font-indexing directory walk is deterministic and ordered
lexicographically by file name: (1) within every directory the entries
are visited in name-sorted order, and (2) for any two trees describing
the same filesystem state — differing only in the OS's enumeration order
of each directory, with sibling names distinct as on a real filesystem —
`search_dir` produces identical searcher state (hence identical catalogue
ordering). -/
theorem walk_sorted_and_enum_order_invariant :
    (∀ cs : List FsTree,
      ((sortChildren cs).map FsTree.name).Pairwise (fun a b => a ≤ b)) ∧
    (∀ t1 t2 : FsTree, SameFs t1 t2 → NodupNames t1 →
      ∀ (s : FontSearcher) (parent : String),
        s.search_dir parent t1 = s.search_dir parent t2) := by
  constructor
  · intro cs
    refine List.Pairwise.map FsTree.name (fun a b hab => ?_)
      (sortChildren_sorted cs)
    simpa [nameLe] using hab
  · intro t1 t2 h hnd s parent
    rw [search_dir_spec, search_dir_spec,
      dirDisc_canon t1, dirDisc_canon t2, canon_eq_of_sameFs h hnd]

/-- Concrete pair of trees for the C7 witness: the same directory with
its two files enumerated in the two possible orders. -/
def witnessTreeA : FsTree :=
  .dir "fonts" [.file "b.ttf" (some [1]), .file "a.otf" (some [2])]

/-- Second enumeration order of the same directory as `witnessTreeA`. -/
def witnessTreeB : FsTree :=
  .dir "fonts" [.file "a.otf" (some [2]), .file "b.ttf" (some [1])]

/-- C7 witness: `walk_sorted_and_enum_order_invariant` applied at the
concrete trees `witnessTreeA`/`witnessTreeB` (same directory, two
enumeration orders), the empty searcher and parent `"/usr"`. -/
theorem walk_sorted_and_enum_order_invariant_witness :
    FontSearcher.new.search_dir "/usr" witnessTreeA
      = FontSearcher.new.search_dir "/usr" witnessTreeB :=
  walk_sorted_and_enum_order_invariant.2 witnessTreeA witnessTreeB
    (SameFs.dir "fonts"
      [.file "b.ttf" (some [1]), .file "a.otf" (some [2])]
      [.file "b.ttf" (some [1]), .file "a.otf" (some [2])]
      [.file "a.otf" (some [2]), .file "b.ttf" (some [1])]
      (List.Forall₂.cons (SameFs.file "b.ttf" (some [1]))
        (List.Forall₂.cons (SameFs.file "a.otf" (some [2]))
          List.Forall₂.nil))
      (List.Perm.swap (FsTree.file "a.otf" (some [2]))
        (FsTree.file "b.ttf" (some [1])) []))
    (NodupNames.dir "fonts"
      [.file "b.ttf" (some [1]), .file "a.otf" (some [2])]
      (by decide)
      (by
        intro c hc
        rcases hc with _ | ⟨_, hc⟩
        · exact NodupNames.file _ _
        rcases hc with _ | ⟨_, hc⟩
        · exact NodupNames.file _ _
        cases hc))
    FontSearcher.new "/usr"

end ExTypst
